import Mathlib

/-!
Verification of the motion-descriptor construction in
`utils/person_frames.py` (class `PersonMovement`) of the virtual-walk
repository, together with its serialization routine `write_to_txt`.

Coordinates and heights are embedded as rationals; the only genuinely
real-valued operation in the source is `math.sqrt` in the body-velocity
computation, which is embedded as `Real.sqrt`.
-/

/-- One 2-D keypoint, mirroring the keypoint objects accessed as
`person.keypoints[i].x` / `.y` in `utils/person_frames.py`. -/
structure Keypoint where
  x : ℚ
  y : ℚ

instance : Inhabited Keypoint := ⟨⟨0, 0⟩⟩

/-- Modelled from the spec: a `PoseFrame` (class `utils.person.Person`, whose
file is not part of the analysed sources) carries an ordered, fixed-size
collection of 2-D joint coordinates (`keypoints`) plus a scalar body-height
estimate `H`. -/
structure Person where
  keypoints : List Keypoint
  H : ℚ

instance : Inhabited Person := ⟨⟨[], 0⟩⟩

/-- Modelled from the spec: `Person.keypoints_positions` is the (J, 2) array of
the joint coordinates of the frame, one (x, y) row per joint, in the fixed joint
index ordering. -/
def Person.keypoints_positions (p : Person) : List (ℚ × ℚ) :=
  p.keypoints.map (fun k => (k.x, k.y))

/-- Model of `np.delete(a, obj, axis=1)` applied to one row along the deleted
axis: numpy builds a boolean keep-mask over the axis, so the entries whose
index lies in `obj` are removed (duplicates in `obj` delete once) and the
remaining entries keep their original relative order. -/
def npDelete (obj : List ℕ) (row : List α) : List α :=
  (row.enum.filter (fun q => decide (q.1 ∉ obj))).map Prod.snd

/-- Model of `np.mean` of a 1-dimensional array: sum divided by length. -/
def npMean (l : List ℚ) : ℚ :=
  l.sum / (l.length : ℚ)

/-- Model of `np.repeat(l, k)`: each element repeated `k` times in place. -/
def npRepeat (l : List α) (k : ℕ) : List α :=
  l.flatMap (fun a => List.replicate k a)

/-- Model of `ndarray.flatten()` on an array of shape (F, n, 2): row-major
order, frame-major then joint then axis. -/
def npFlatten (xss : List (List (ℚ × ℚ))) : List ℚ :=
  xss.flatMap (fun row => row.flatMap (fun c => [c.1, c.2]))

/-- The default `joints_remove` tuple of `PersonMovement.get_vector`. -/
def defaultJointsRemove : List ℕ := [0, 1, 2, 3, 4, 13, 14, 15, 16]

/-- Source line 23: `hs = np.array([person.H for person in self.list_persons])`. -/
def hs (ps : List Person) : List ℚ := ps.map Person.H

/-- Source line 33: `avg_h = np.mean(hs)`. -/
def avg_h (ps : List Person) : ℚ := npMean (hs ps)

/-- Source line 32: `xs = np.delete(xs, joints_remove, axis=1)` applied to the
stack `xs = np.array([person.keypoints_positions for person in list_persons])`
of line 22: per-frame removal of the excluded joint columns. -/
def xsFiltered (joints_remove : List ℕ) (ps : List Person) : List (List (ℚ × ℚ)) :=
  (ps.map Person.keypoints_positions).map (npDelete joints_remove)

/-- The scalar `np.mean(xs)` of source line 34: the single global mean over all
coordinates of the filtered (F, J-prime, 2) array. -/
def xsMean (joints_remove : List ℕ) (ps : List Person) : ℚ :=
  npMean (npFlatten (xsFiltered joints_remove ps))

/-- Source line 34: `x = (xs - np.mean(xs)) / avg_h`, the normalized
positions: subtract the global scalar mean from every coordinate, then divide
every value by the average height. -/
def xNorm (joints_remove : List ℕ) (ps : List Person) : List (List (ℚ × ℚ)) :=
  (xsFiltered joints_remove ps).map
    (List.map (fun c => ((c.1 - xsMean joints_remove ps) / avg_h ps,
                         (c.2 - xsMean joints_remove ps) / avg_h ps)))

/-- The squared displacement of the reference (neck) joint, index 17 in the
original pre-filter ordering, between two frames: sources lines 28-29 compute
`vix = (q.keypoints[17].x - p.keypoints[17].x) ** 2` and similarly `viy`. -/
def neckDelta2 (p q : Person) : ℚ :=
  ((q.keypoints.getD 17 default).x - (p.keypoints.getD 17 default).x) ^ 2 +
    ((q.keypoints.getD 17 default).y - (p.keypoints.getD 17 default).y) ^ 2

/-- Source lines 26-30: the list `v` of body velocities
`math.sqrt(vix + viy)`, one per consecutive frame pair. -/
noncomputable def vRaw (ps : List Person) : List ℝ :=
  (ps.zip ps.tail).map (fun pq => Real.sqrt ((neckDelta2 pq.1 pq.2 : ℚ) : ℝ))

/-- Source line 35: `v = np.array(v / avg_h)`, each body velocity divided by
the average height. -/
noncomputable def vNorm (ps : List Person) : List ℝ :=
  (vRaw ps).map (fun r => r / ((avg_h ps : ℚ) : ℝ))

/-- Source lines 36-38: `v_joints[i] = x[i + 1] - x[i]` over the normalized
positions, one (J-prime, 2) row of per-joint per-axis differences for each
consecutive frame pair. -/
def vJoints (joints_remove : List ℕ) (ps : List Person) : List (List (ℚ × ℚ)) :=
  ((xNorm joints_remove ps).zip (xNorm joints_remove ps).tail).map
    (fun rr => (rr.1.zip rr.2).map (fun cc => (cc.2.1 - cc.1.1, cc.2.2 - cc.1.2)))

/-- The first operand of the concatenation on source line 40: `xs.flatten()` —
note this is the filtered but UNnormalized coordinate array `xs`, not the
normalized `x`. -/
def xs_flat (joints_remove : List ℕ) (ps : List Person) : List ℚ :=
  npFlatten (xsFiltered joints_remove ps)

/-- The third operand of the concatenation on source line 40:
`v_joints.flatten()`. -/
def v_joints_flat (joints_remove : List ℕ) (ps : List Person) : List ℚ :=
  npFlatten (vJoints joints_remove ps)

/-- Source line 40:
`coords = np.concatenate((xs.flatten(), np.repeat(v.flatten(), times_v), v_joints.flatten()))`.
The reshape on line 41 to (1, N) does not change the order of entries, so the
vector is embedded as the flat list of its N entries. -/
noncomputable def get_vector (times_v : ℕ) (joints_remove : List ℕ)
    (ps : List Person) : List ℝ :=
  (xs_flat joints_remove ps).map Rat.cast ++
    npRepeat (vNorm ps) times_v ++
    (v_joints_flat joints_remove ps).map Rat.cast

/-- The Python exceptions that `PersonMovement.get_vector` can actually raise. -/
inductive PyError where
  | indexError
  | axisError
  | valueError
deriving DecidableEq

/-- Exception-aware model of `PersonMovement.get_vector`, in the order the
source runs into them:
lines 27-29 index `person.keypoints[17]` for every frame as soon as there are
at least two frames (IndexError if some frame has fewer than 18 keypoints);
line 32 `np.delete(xs, joints_remove, axis=1)` needs the stack to be a genuine
3-dimensional array (AxisError on an empty or ragged frame list) and raises
IndexError when an index of `joints_remove` is out of range for the joint
axis.  Nothing after line 32 raises: in particular a zero `avg_h` on line 33
only produces non-finite values in numpy, not an exception. -/
noncomputable def get_vector_except (times_v : ℕ) (joints_remove : List ℕ)
    (ps : List Person) : Except PyError (List ℝ) :=
  if 2 ≤ ps.length ∧ ∃ p ∈ ps, p.keypoints.length < 18 then
    .error .indexError
  else if ps.isEmpty then
    .error .axisError
  else if ¬ ∀ p ∈ ps, p.keypoints.length = (ps.headD default).keypoints.length then
    .error .axisError
  else if ∃ i ∈ joints_remove, (ps.headD default).keypoints.length ≤ i then
    .error .indexError
  else
    .ok (get_vector times_v joints_remove ps)

/-- A cell of the 1-dimensional array built by `write_to_txt`: numpy arrays
are homogeneous, and the cells before dtype promotion are either floats (the
vector entries) or strings (the label). -/
inductive NpValue where
  | float (q : ℝ)
  | str (s : String)

/-- Whether a cell is a string. -/
def NpValue.isStr : NpValue → Bool
  | .str _ => true
  | .float _ => false

/-- Model of the dtype promotion of `np.append` (via `np.concatenate`): a
single string cell promotes the dtype of the whole result array from float64
to a unicode string dtype. -/
def npIsUnicodeDtype (l : List NpValue) : Bool := l.any NpValue.isStr

/-- Model of `np.append(arr, values)`: both operands are raveled and
concatenated into one 1-dimensional array. -/
def np_append (a b : List NpValue) : List NpValue := a ++ b

/-- Model of `np.savetxt(path, X, delimiter)` on a 1-dimensional `X`: numpy
reshapes `X` to a single column, so each element becomes its own output line
(the delimiter joins fields within one line and is never used for a single
column).  Each line is rendered with the default format `%.18e`, which only
accepts numeric dtypes: on an array of string dtype numpy raises
`ValueError: Mismatch between array dtype and format specifier`.  On success
the model returns the written lines, one cell per line. -/
def np_savetxt (x : List NpValue) : Except PyError (List NpValue) :=
  if npIsUnicodeDtype x then .error .valueError else .ok x

/-- Source lines 45-47, `PersonMovement.write_to_txt`:
`writer = np.append([label], self.coords)` followed by
`np.savetxt(path, writer, delimiter=TAB)`. -/
def write_to_txt (label : String) (coords : List ℝ) : Except PyError (List NpValue) :=
  np_savetxt (np_append [NpValue.str label] (coords.map NpValue.float))

/-- A frame whose 18 keypoints all sit at (1, 1), with height 2. -/
def pOnes : Person := ⟨List.replicate 18 ⟨1, 1⟩, 2⟩

/-- A frame whose 18 keypoints all sit at (1, 1), with height 0. -/
def pH0 : Person := ⟨List.replicate 18 ⟨1, 1⟩, 0⟩

/-- A frame whose 18 keypoints all sit at the origin, with height 1. -/
def pA : Person := ⟨List.replicate 18 ⟨0, 0⟩, 1⟩

/-- A frame whose neck keypoint (index 17) sits at (3, 4) and whose other
keypoints sit at the origin, with height 1. -/
def pB : Person := ⟨List.replicate 17 ⟨0, 0⟩ ++ [⟨3, 4⟩], 1⟩

/-- Five identical frames, matching the end-to-end example shape F = 5. -/
def ps5 : List Person := List.replicate 5 pOnes

/-- Scaling a frame by a constant `c`: every keypoint coordinate and the
height are multiplied by `c`. -/
def scalePerson (c : ℚ) (p : Person) : Person :=
  ⟨p.keypoints.map (fun k => ⟨c * k.x, c * k.y⟩), c * p.H⟩

/-- The reference (neck) keypoint of a frame as a point of the Euclidean
plane. -/
noncomputable def neckPoint (p : Person) : EuclideanSpace ℝ (Fin 2) :=
  ![((p.keypoints.getD 17 default).x : ℝ), ((p.keypoints.getD 17 default).y : ℝ)]

/-! ### Length and counting helper lemmas -/

theorem countP_add_countP_neg (p : α → Bool) (l : List α) :
    l.countP p + l.countP (fun a => !(p a)) = l.length := by
  induction l with
  | nil => rfl
  | cons a t ih =>
    by_cases h : p a = true <;> simp [List.countP_cons, h] <;> omega

theorem length_filter_mem_range {obj : List ℕ} {n : ℕ}
    (hnd : obj.Nodup) (hlt : ∀ i ∈ obj, i < n) :
    ((List.range n).filter (fun i => decide (i ∈ obj))).length = obj.length := by
  have hperm : ((List.range n).filter (fun i => decide (i ∈ obj))).Perm obj := by
    rw [List.perm_ext_iff_of_nodup (List.Nodup.filter _ (List.nodup_range n)) hnd]
    intro a
    simp only [List.mem_filter, List.mem_range, decide_eq_true_eq]
    exact ⟨fun h => h.2, fun h => ⟨hlt a h, h⟩⟩
  exact hperm.length_eq

theorem length_npDelete {α : Type _} (obj : List ℕ) (row : List α)
    (hnd : obj.Nodup) (hlt : ∀ i ∈ obj, i < row.length) :
    (npDelete obj row).length = row.length - obj.length := by
  unfold npDelete
  rw [List.length_map, ← List.countP_eq_length_filter]
  have h1 : row.enum.countP (fun q => decide (q.1 ∉ obj))
      = (List.range row.length).countP (fun i => decide (i ∉ obj)) := by
    rw [← List.enum_map_fst row, List.countP_map]
    rfl
  rw [h1]
  have h2 := countP_add_countP_neg (fun i => decide (i ∈ obj)) (List.range row.length)
  have h3 : (List.range row.length).countP (fun i => decide (i ∈ obj)) = obj.length := by
    rw [List.countP_eq_length_filter]
    exact length_filter_mem_range hnd hlt
  have h4 : (List.range row.length).countP (fun i => !(decide (i ∈ obj)))
      = (List.range row.length).countP (fun i => decide (i ∉ obj)) := by
    apply List.countP_congr
    intro a _
    simp
  rw [List.length_range] at h2
  omega

theorem length_npRepeat (l : List α) (k : ℕ) :
    (npRepeat l k).length = l.length * k := by
  induction l with
  | nil => simp [npRepeat]
  | cons a t ih =>
    simp only [npRepeat, List.flatMap_cons, List.length_append,
      List.length_replicate, List.length_cons] at *
    rw [ih]
    ring

theorem length_npFlatten_uniform {xss : List (List (ℚ × ℚ))} {n : ℕ}
    (h : ∀ r ∈ xss, r.length = n) :
    (npFlatten xss).length = xss.length * (2 * n) := by
  induction xss with
  | nil => simp [npFlatten]
  | cons r t ih =>
    have hr : r.length = n := h r (.head t)
    have hrow : (r.flatMap (fun c => [c.1, c.2])).length = 2 * n := by
      rw [List.length_flatMap]
      have : List.map (List.length ∘ fun c : ℚ × ℚ => [c.1, c.2]) r
          = List.map (Function.const (ℚ × ℚ) 2) r := by
        apply List.map_congr_left
        intro a _
        rfl
      rw [this, List.map_const, List.sum_replicate, hr, smul_eq_mul, Nat.mul_comm]
    have ht := ih (fun r hrmem => h r (.tail _ hrmem))
    simp only [npFlatten, List.flatMap_cons, List.length_append] at *
    rw [hrow, ht, List.length_cons]
    ring

theorem getElem?_npRepeat (l : List α) {k i j : ℕ} (hj : j < k) :
    (npRepeat l k)[i * k + j]? = l[i]? := by
  induction l generalizing i with
  | nil => simp [npRepeat]
  | cons a t ih =>
    have hrep : npRepeat (a :: t) k = List.replicate k a ++ npRepeat t k := rfl
    rw [hrep, List.getElem?_append]
    cases i with
    | zero =>
      simp only [Nat.zero_mul, Nat.zero_add, List.length_replicate]
      rw [if_pos hj, List.getElem?_replicate, if_pos hj]
      simp
    | succ i =>
      have hge : ¬ ((i + 1) * k + j < (List.replicate k a).length) := by
        simp only [List.length_replicate]
        have : k ≤ (i + 1) * k + j := by
          calc k ≤ (i + 1) * k := Nat.le_mul_of_pos_left k (Nat.succ_pos i)
          _ ≤ (i + 1) * k + j := Nat.le_add_right _ _
        omega
      rw [if_neg hge, List.length_replicate]
      have harith : (i + 1) * k + j - k = i * k + j := by
        have : (i + 1) * k = i * k + k := by ring
        omega
      rw [harith, ih]
      simp

/-! ### Shape lemmas for the vector segments -/

theorem length_keypoints_positions (p : Person) :
    p.keypoints_positions.length = p.keypoints.length := by
  simp [Person.keypoints_positions]

theorem length_xsFiltered (joints_remove : List ℕ) (ps : List Person) :
    (xsFiltered joints_remove ps).length = ps.length := by
  simp [xsFiltered]

theorem row_length_xsFiltered {joints_remove : List ℕ} {ps : List Person} {J : ℕ}
    (hun : ∀ p ∈ ps, p.keypoints.length = J)
    (hnd : joints_remove.Nodup) (hlt : ∀ i ∈ joints_remove, i < J) :
    ∀ r ∈ xsFiltered joints_remove ps, r.length = J - joints_remove.length := by
  intro r hr
  simp only [xsFiltered, List.map_map, List.mem_map, Function.comp] at hr
  obtain ⟨p, hp, rfl⟩ := hr
  have hkp : p.keypoints_positions.length = J := by
    rw [length_keypoints_positions, hun p hp]
  rw [length_npDelete _ _ hnd (by rw [hkp]; exact hlt), hkp]

theorem length_xs_flat {joints_remove : List ℕ} {ps : List Person} {J : ℕ}
    (hun : ∀ p ∈ ps, p.keypoints.length = J)
    (hnd : joints_remove.Nodup) (hlt : ∀ i ∈ joints_remove, i < J) :
    (xs_flat joints_remove ps).length
      = ps.length * (2 * (J - joints_remove.length)) := by
  rw [xs_flat, length_npFlatten_uniform (row_length_xsFiltered hun hnd hlt),
    length_xsFiltered]

theorem length_xNorm (joints_remove : List ℕ) (ps : List Person) :
    (xNorm joints_remove ps).length = ps.length := by
  simp [xNorm, length_xsFiltered]

theorem row_length_xNorm {joints_remove : List ℕ} {ps : List Person} {J : ℕ}
    (hun : ∀ p ∈ ps, p.keypoints.length = J)
    (hnd : joints_remove.Nodup) (hlt : ∀ i ∈ joints_remove, i < J) :
    ∀ r ∈ xNorm joints_remove ps, r.length = J - joints_remove.length := by
  intro r hr
  simp only [xNorm, List.mem_map] at hr
  obtain ⟨r0, hr0, rfl⟩ := hr
  rw [List.length_map]
  exact row_length_xsFiltered hun hnd hlt r0 hr0

theorem length_vJoints (joints_remove : List ℕ) (ps : List Person) :
    (vJoints joints_remove ps).length = ps.length - 1 := by
  simp only [vJoints, List.length_map, List.length_zip, List.length_tail,
    length_xNorm]
  omega

theorem row_length_vJoints {joints_remove : List ℕ} {ps : List Person} {J : ℕ}
    (hun : ∀ p ∈ ps, p.keypoints.length = J)
    (hnd : joints_remove.Nodup) (hlt : ∀ i ∈ joints_remove, i < J) :
    ∀ r ∈ vJoints joints_remove ps, r.length = J - joints_remove.length := by
  intro r hr
  simp only [vJoints, List.mem_map] at hr
  obtain ⟨rr, hrr, rfl⟩ := hr
  have hmem := List.of_mem_zip (by
    show (rr.1, rr.2) ∈ _
    simpa using hrr)
  have h1 : rr.1.length = J - joints_remove.length :=
    row_length_xNorm hun hnd hlt rr.1 hmem.1
  have h2 : rr.2.length = J - joints_remove.length :=
    row_length_xNorm hun hnd hlt rr.2 (List.mem_of_mem_tail hmem.2)
  simp [List.length_map, List.length_zip, h1, h2]

theorem length_v_joints_flat {joints_remove : List ℕ} {ps : List Person} {J : ℕ}
    (hun : ∀ p ∈ ps, p.keypoints.length = J)
    (hnd : joints_remove.Nodup) (hlt : ∀ i ∈ joints_remove, i < J) :
    (v_joints_flat joints_remove ps).length
      = (ps.length - 1) * (2 * (J - joints_remove.length)) := by
  rw [v_joints_flat, length_npFlatten_uniform (row_length_vJoints hun hnd hlt),
    length_vJoints]

theorem length_vRaw (ps : List Person) : (vRaw ps).length = ps.length - 1 := by
  simp only [vRaw, List.length_map, List.length_zip, List.length_tail]
  omega

theorem length_vNorm (ps : List Person) : (vNorm ps).length = ps.length - 1 := by
  simp [vNorm, length_vRaw]

theorem length_get_vector {times_v : ℕ} {joints_remove : List ℕ}
    {ps : List Person} {J : ℕ}
    (hun : ∀ p ∈ ps, p.keypoints.length = J)
    (hnd : joints_remove.Nodup) (hlt : ∀ i ∈ joints_remove, i < J) :
    (get_vector times_v joints_remove ps).length
      = ps.length * ((J - joints_remove.length) * 2)
        + (ps.length - 1) * times_v
        + (ps.length - 1) * ((J - joints_remove.length) * 2) := by
  rw [get_vector, List.length_append, List.length_append, List.length_map,
    List.length_map, length_xs_flat hun hnd hlt,
    length_v_joints_flat hun hnd hlt, length_npRepeat, length_vNorm]
  ring

/-! ### Normalization, scaling and distance helper lemmas -/

theorem sum_map_sub_const (m : ℚ) (l : List ℚ) :
    (l.map (fun q => q - m)).sum = l.sum - l.length * m := by
  induction l with
  | nil => simp
  | cons a t ih =>
    simp only [List.map_cons, List.sum_cons, List.length_cons, ih]
    push_cast
    ring

theorem npMean_center (l : List ℚ) :
    npMean (l.map (fun q => q - npMean l)) = 0 := by
  rcases eq_or_ne l [] with rfl | h
  · simp [npMean]
  · have hn : (l.length : ℚ) ≠ 0 :=
      Nat.cast_ne_zero.mpr (fun hl => h (List.length_eq_zero.mp hl))
    rw [npMean, List.length_map, sum_map_sub_const, npMean]
    rw [mul_comm, div_mul_cancel₀ _ hn, sub_self, zero_div]

theorem keypoints_positions_scalePerson (c : ℚ) (p : Person) :
    (scalePerson c p).keypoints_positions
      = p.keypoints_positions.map (fun q => (c * q.1, c * q.2)) := by
  simp [scalePerson, Person.keypoints_positions, List.map_map]

theorem npDelete_map (obj : List ℕ) (f : α → β) (l : List α) :
    npDelete obj (l.map f) = (npDelete obj l).map f := by
  unfold npDelete
  rw [List.enum_map, List.filter_map, List.map_map, List.map_map]
  have h1 : ((fun q : ℕ × β => decide (q.1 ∉ obj)) ∘ Prod.map id f)
      = (fun q : ℕ × α => decide (q.1 ∉ obj)) := by
    funext q
    cases q
    rfl
  have h2 : (Prod.snd ∘ Prod.map id f : ℕ × α → β) = f ∘ Prod.snd := by
    funext q
    cases q
    rfl
  rw [h1, h2]

theorem npFlatten_map_scale (c : ℚ) (xss : List (List (ℚ × ℚ))) :
    npFlatten (xss.map (List.map (fun q => (c * q.1, c * q.2))))
      = (npFlatten xss).map (fun q => c * q) := by
  simp [npFlatten, List.flatMap_map, List.map_flatMap]

theorem sum_map_mul_const (c : ℚ) (l : List ℚ) :
    (l.map (fun q => c * q)).sum = c * l.sum := by
  induction l with
  | nil => simp
  | cons a t ih =>
    simp only [List.map_cons, List.sum_cons, ih]
    ring

theorem npMean_map_mul (c : ℚ) (l : List ℚ) :
    npMean (l.map (fun q => c * q)) = c * npMean l := by
  rw [npMean, npMean, List.length_map, sum_map_mul_const, mul_div_assoc]

theorem hs_scale (c : ℚ) (ps : List Person) :
    hs (ps.map (scalePerson c)) = (hs ps).map (fun q => c * q) := by
  simp [hs, scalePerson, List.map_map]

theorem avg_h_scale (c : ℚ) (ps : List Person) :
    avg_h (ps.map (scalePerson c)) = c * avg_h ps := by
  rw [avg_h, hs_scale, npMean_map_mul, avg_h]

theorem xsFiltered_scale (c : ℚ) (joints_remove : List ℕ) (ps : List Person) :
    xsFiltered joints_remove (ps.map (scalePerson c))
      = (xsFiltered joints_remove ps).map
          (List.map (fun q => (c * q.1, c * q.2))) := by
  simp only [xsFiltered, List.map_map]
  apply List.map_congr_left
  intro p _
  simp only [Function.comp_apply]
  rw [keypoints_positions_scalePerson, npDelete_map]

theorem xsMean_scale (c : ℚ) (joints_remove : List ℕ) (ps : List Person) :
    xsMean joints_remove (ps.map (scalePerson c))
      = c * xsMean joints_remove ps := by
  rw [xsMean, xsFiltered_scale, npFlatten_map_scale, npMean_map_mul, xsMean]

theorem xs_flat_scale (c : ℚ) (joints_remove : List ℕ) (ps : List Person) :
    xs_flat joints_remove (ps.map (scalePerson c))
      = (xs_flat joints_remove ps).map (fun q => c * q) := by
  rw [xs_flat, xs_flat, xsFiltered_scale, npFlatten_map_scale]

theorem xNorm_scale {c : ℚ} (hc : c ≠ 0) (joints_remove : List ℕ)
    (ps : List Person) :
    xNorm joints_remove (ps.map (scalePerson c)) = xNorm joints_remove ps := by
  rw [xNorm, xNorm, xsFiltered_scale, xsMean_scale, avg_h_scale, List.map_map]
  apply List.map_congr_left
  intro row _
  simp only [Function.comp_apply, List.map_map]
  apply List.map_congr_left
  intro q _
  simp only [Function.comp_apply]
  have key : ∀ v : ℚ, (c * v - c * xsMean joints_remove ps) / (c * avg_h ps)
      = (v - xsMean joints_remove ps) / avg_h ps := by
    intro v
    rw [← mul_sub, mul_div_mul_left _ _ hc]
  exact Prod.ext (key q.1) (key q.2)

theorem v_joints_flat_scale {c : ℚ} (hc : c ≠ 0) (joints_remove : List ℕ)
    (ps : List Person) :
    v_joints_flat joints_remove (ps.map (scalePerson c))
      = v_joints_flat joints_remove ps := by
  rw [v_joints_flat, v_joints_flat, vJoints, vJoints, xNorm_scale hc]

theorem map_ratCast_inj {a b : List ℚ}
    (h : a.map (Rat.cast : ℚ → ℝ) = b.map Rat.cast) : a = b :=
  (List.map_injective_iff.mpr Rat.cast_injective) h

theorem dist_neckPoint (p q : Person) :
    dist (neckPoint p) (neckPoint q) = Real.sqrt ((neckDelta2 p q : ℚ) : ℝ) := by
  rw [EuclideanSpace.dist_eq]
  congr 1
  rw [Fin.sum_univ_two]
  simp only [neckPoint, Matrix.cons_val_zero, Matrix.cons_val_one,
    Matrix.head_cons, Real.dist_eq, sq_abs, neckDelta2]
  push_cast
  ring

theorem avg_h_pos {ps : List Person} (hne : ps ≠ [])
    (hH : ∀ p ∈ ps, 0 < p.H) : 0 < avg_h ps := by
  rw [avg_h, npMean]
  apply div_pos
  · apply List.sum_pos
    · intro a ha
      simp only [hs, List.mem_map] at ha
      obtain ⟨p, hp, rfl⟩ := ha
      exact hH p hp
    · simp [hs, hne]
  · have : ps.length ≠ 0 := fun hl => hne (List.length_eq_zero.mp hl)
    have : 0 < ps.length := Nat.pos_of_ne_zero this
    rw [hs, List.length_map]
    exact_mod_cast this

theorem getElem?_zip_tail (ps : List Person) (i : ℕ) (hi : i + 1 < ps.length) :
    (ps.zip ps.tail)[i]? = some (ps.getD i default, ps.getD (i + 1) default) := by
  have hlen : (ps.zip ps.tail).length = ps.length - 1 := by
    simp only [List.length_zip, List.length_tail]
    omega
  have hi2 : i < (ps.zip ps.tail).length := by omega
  rw [List.getElem?_eq_getElem hi2, List.getElem_zip, List.getElem_tail]
  have h1 : i < ps.length := by omega
  rw [List.getD_eq_getElem ps default h1, List.getD_eq_getElem ps default hi]

/-! ### Segmentation and error-path helper lemmas -/

theorem segments_get_vector {times_v : ℕ} {joints_remove : List ℕ}
    {ps : List Person} {J : ℕ}
    (hun : ∀ p ∈ ps, p.keypoints.length = J)
    (hnd : joints_remove.Nodup) (hlt : ∀ i ∈ joints_remove, i < J) :
    (get_vector times_v joints_remove ps).take
        (ps.length * ((J - joints_remove.length) * 2))
      = (xs_flat joints_remove ps).map Rat.cast
    ∧ ((get_vector times_v joints_remove ps).drop
        (ps.length * ((J - joints_remove.length) * 2))).take
        ((ps.length - 1) * times_v)
      = npRepeat (vNorm ps) times_v
    ∧ ((get_vector times_v joints_remove ps).drop
        (ps.length * ((J - joints_remove.length) * 2))).drop
        ((ps.length - 1) * times_v)
      = (v_joints_flat joints_remove ps).map Rat.cast := by
  have hA : ((xs_flat joints_remove ps).map (Rat.cast : ℚ → ℝ)).length
      = ps.length * ((J - joints_remove.length) * 2) := by
    rw [List.length_map, length_xs_flat hun hnd hlt]
    ring
  have hB : (npRepeat (vNorm ps) times_v).length
      = (ps.length - 1) * times_v := by
    rw [length_npRepeat, length_vNorm]
  refine ⟨?_, ?_, ?_⟩
  · rw [get_vector, List.append_assoc, List.take_left' hA]
  · rw [get_vector, List.append_assoc, List.drop_left' hA, List.take_left' hB]
  · rw [get_vector, List.append_assoc, List.drop_left' hA, List.drop_left' hB]

theorem headD_keypoints_length {ps : List Person} {J : ℕ} (hne : ps ≠ [])
    (hun : ∀ p ∈ ps, p.keypoints.length = J) :
    (ps.headD default).keypoints.length = J := by
  cases ps with
  | nil => exact absurd rfl hne
  | cons p t => exact hun p (by simp)

theorem get_vector_except_ok {times_v : ℕ} {joints_remove : List ℕ}
    {ps : List Person} {J : ℕ} (hne : ps ≠ [])
    (hun : ∀ p ∈ ps, p.keypoints.length = J)
    (h18 : 2 ≤ ps.length → ∀ p ∈ ps, 18 ≤ p.keypoints.length)
    (hlt : ∀ i ∈ joints_remove, i < J) :
    get_vector_except times_v joints_remove ps
      = .ok (get_vector times_v joints_remove ps) := by
  have hhead := headD_keypoints_length hne hun
  have h1 : ¬(2 ≤ ps.length ∧ ∃ p ∈ ps, p.keypoints.length < 18) := by
    rintro ⟨hF, p, hp, hlt18⟩
    have := h18 hF p hp
    omega
  have h2 : ¬(ps.isEmpty = true) := by
    cases ps with
    | nil => exact absurd rfl hne
    | cons p t => simp
  have h3 : ¬¬∀ p ∈ ps,
      p.keypoints.length = (ps.headD default).keypoints.length :=
    not_not_intro (fun p hp => by rw [hun p hp, hhead])
  have h4 : ¬∃ i ∈ joints_remove, (ps.headD default).keypoints.length ≤ i := by
    rintro ⟨i, hi, hle⟩
    rw [hhead] at hle
    exact absurd (hlt i hi) (not_lt.mpr hle)
  rw [get_vector_except, if_neg h1, if_neg h2, if_neg h3, if_neg h4]

theorem get_vector_except_nil (times_v : ℕ) (joints_remove : List ℕ) :
    get_vector_except times_v joints_remove [] = .error .axisError := by
  rw [get_vector_except, if_neg (by simp), if_pos (by simp)]

/-! ### Claim theorems -/

/-- C6: for every valid input with F ≥ 2 frames, J-prime = J − |excluded|
retained joints and repeat factor R, the computed vector has length exactly
F·(J-prime)·2 + (F−1)·R + (F−1)·(J-prime)·2 (with J = 18, the default
excluded set of 9 joints, F = 5 and R = 10 this is 202, see the witness). -/
theorem c6_vector_length (times_v : ℕ) (joints_remove : List ℕ)
    (ps : List Person) (J : ℕ) (_hF : 2 ≤ ps.length)
    (hun : ∀ p ∈ ps, p.keypoints.length = J)
    (hnd : joints_remove.Nodup) (hlt : ∀ i ∈ joints_remove, i < J) :
    (get_vector times_v joints_remove ps).length
      = ps.length * (J - joints_remove.length) * 2
        + (ps.length - 1) * times_v
        + (ps.length - 1) * ((J - joints_remove.length) * 2) := by
  rw [length_get_vector hun hnd hlt]
  ring

/-- Witness for C6 at the end-to-end example shape: five 18-keypoint frames,
the default 9-joint excluded set and repeat factor 10 give
5·9·2 + 4·10 + 4·9·2 = 202 vector entries. -/
theorem c6_witness : (get_vector 10 defaultJointsRemove ps5).length = 202 := by
  have h := c6_vector_length 10 defaultJointsRemove ps5 18 (by decide)
    (by decide) (by decide) (by decide)
  rw [h]
  decide

/-- C7: a single-frame input with positive heights does not fail, and the
computed vector has length exactly (J-prime)·2: both velocity segments are
empty. -/
theorem c7_single_frame (times_v : ℕ) (joints_remove : List ℕ)
    (ps : List Person) (J : ℕ) (hF : ps.length = 1)
    (_hH : ∀ p ∈ ps, 0 < p.H)
    (hun : ∀ p ∈ ps, p.keypoints.length = J)
    (hnd : joints_remove.Nodup) (hlt : ∀ i ∈ joints_remove, i < J) :
    get_vector_except times_v joints_remove ps
        = .ok (get_vector times_v joints_remove ps)
      ∧ (get_vector times_v joints_remove ps).length
          = (J - joints_remove.length) * 2 := by
  have hne : ps ≠ [] := by
    intro h
    rw [h] at hF
    exact absurd hF (by norm_num)
  constructor
  · exact get_vector_except_ok hne hun
      (fun h2 => absurd h2 (by omega)) hlt
  · rw [length_get_vector hun hnd hlt, hF]
    simp

/-- Witness for C7: one 18-keypoint frame with height 2 succeeds and yields a
vector of length (18 − 9)·2 = 18. -/
theorem c7_witness :
    get_vector_except 10 defaultJointsRemove [pOnes]
        = .ok (get_vector 10 defaultJointsRemove [pOnes])
      ∧ (get_vector 10 defaultJointsRemove [pOnes]).length
          = (18 - defaultJointsRemove.length) * 2 :=
  c7_single_frame 10 defaultJointsRemove [pOnes] 18 (by decide)
    (by intro p hp; simp only [List.mem_singleton] at hp; subst hp
        norm_num [pOnes])
    (by decide) (by decide) (by decide)

/-- C9: for every frame sequence with at least i+2 frames, the i-th
pre-replication body-velocity scalar is exactly the Euclidean distance
between the raw (unnormalized) neck keypoints — index 17 in the original,
pre-filter ordering — of frames i and i+1, divided by the average height, and
with positive heights every such scalar is nonnegative. -/
theorem c9_body_velocity (ps : List Person) (i : ℕ)
    (hi : i + 1 < ps.length) (hH : ∀ p ∈ ps, 0 < p.H) :
    (vNorm ps)[i]?
        = some (dist (neckPoint (ps.getD i default))
            (neckPoint (ps.getD (i + 1) default)) / ((avg_h ps : ℚ) : ℝ))
      ∧ ∀ r ∈ vNorm ps, 0 ≤ r := by
  constructor
  · rw [vNorm, vRaw, List.getElem?_map, List.getElem?_map,
      getElem?_zip_tail ps i hi]
    simp only [Option.map_some']
    rw [dist_neckPoint]
  · intro r hr
    simp only [vNorm, vRaw, List.mem_map] at hr
    obtain ⟨a, ⟨pq, hpq, rfl⟩, rfl⟩ := hr
    have hpos : 0 < avg_h ps :=
      avg_h_pos (List.ne_nil_of_length_pos (by omega)) hH
    exact div_nonneg (Real.sqrt_nonneg _)
      (le_of_lt (by exact_mod_cast hpos))

/-- Witness for C9: two frames whose neck keypoints are (0, 0) and (3, 4),
with height 1. -/
theorem c9_witness :
    (vNorm [pA, pB])[0]?
        = some (dist (neckPoint (([pA, pB] : List Person).getD 0 default))
            (neckPoint (([pA, pB] : List Person).getD 1 default))
              / ((avg_h [pA, pB] : ℚ) : ℝ))
      ∧ ∀ r ∈ vNorm [pA, pB], 0 ≤ r :=
  c9_body_velocity [pA, pB] 0 (by decide)
    (by intro p hp
        simp only [List.mem_cons, List.mem_singleton] at hp
        rcases hp with rfl | rfl | h
        · norm_num [pA]
        · norm_num [pB]
        · exact absurd h (List.not_mem_nil p))

/-- C10: for F ≥ 2 frames and a positive repeat factor R, the velocity
segment of the vector (the (F−1)·R entries after the position segment) is
exactly each of the F−1 body-velocity scalars repeated R times consecutively,
runs concatenated in frame order. -/
theorem c10_velocity_segment (times_v : ℕ) (joints_remove : List ℕ)
    (ps : List Person) (J : ℕ) (_hF : 2 ≤ ps.length) (_hR : 0 < times_v)
    (hun : ∀ p ∈ ps, p.keypoints.length = J)
    (hnd : joints_remove.Nodup) (hlt : ∀ i ∈ joints_remove, i < J) :
    ((get_vector times_v joints_remove ps).drop
        (ps.length * ((J - joints_remove.length) * 2))).take
        ((ps.length - 1) * times_v)
      = npRepeat (vNorm ps) times_v
    ∧ (npRepeat (vNorm ps) times_v).length = (ps.length - 1) * times_v
    ∧ ∀ i j : ℕ, i < ps.length - 1 → j < times_v →
        (npRepeat (vNorm ps) times_v)[i * times_v + j]? = (vNorm ps)[i]? := by
  refine ⟨(segments_get_vector hun hnd hlt).2.1, ?_, ?_⟩
  · rw [length_npRepeat, length_vNorm]
  · intro i j _ hj
    exact getElem?_npRepeat _ hj

/-- Witness for C10 at two frames, the default excluded set and repeat factor
10. -/
theorem c10_witness :
    ((get_vector 10 defaultJointsRemove [pA, pB]).drop
        (([pA, pB] : List Person).length
          * ((18 - defaultJointsRemove.length) * 2))).take
        ((([pA, pB] : List Person).length - 1) * 10)
      = npRepeat (vNorm [pA, pB]) 10
    ∧ (npRepeat (vNorm [pA, pB]) 10).length
        = (([pA, pB] : List Person).length - 1) * 10
    ∧ ∀ i j : ℕ, i < ([pA, pB] : List Person).length - 1 → j < 10 →
        (npRepeat (vNorm [pA, pB]) 10)[i * 10 + j]? = (vNorm [pA, pB])[i]? :=
  c10_velocity_segment 10 defaultJointsRemove [pA, pB] 18 (by decide)
    (by decide) (by decide) (by decide) (by decide)

/-! ### Concrete evaluations at the sample frames -/

theorem xs_flat_pOnes :
    xs_flat defaultJointsRemove [pOnes] = List.replicate 18 1 := by decide

theorem avg_h_pOnes : avg_h [pOnes] = 2 := by
  norm_num [avg_h, hs, npMean, pOnes]

theorem xsMean_pOnes : xsMean defaultJointsRemove [pOnes] = 1 := by
  rw [xsMean, ← xs_flat, xs_flat_pOnes, npMean, List.sum_replicate,
    List.length_replicate]
  norm_num

theorem xNorm_flat_pOnes :
    npFlatten (xNorm defaultJointsRemove [pOnes]) = List.replicate 18 0 := by
  rw [xNorm, xsMean_pOnes, avg_h_pOnes,
    show xsFiltered defaultJointsRemove [pOnes]
      = [[((1:ℚ), (1:ℚ)), (1, 1), (1, 1), (1, 1), (1, 1), (1, 1), (1, 1),
          (1, 1), (1, 1)]] from by decide]
  norm_num [npFlatten, List.replicate]

theorem avg_h_pH0 : avg_h [pH0] = 0 := by
  norm_num [avg_h, hs, npMean, pH0]

/-- C1 (counterexample): with the default configuration and one frame whose
filtered coordinates are all 1 (height 2), the computed vector is NOT the
flattened normalized positions followed by the velocity segments: the code
concatenates the raw filtered coordinates `xs.flatten()` instead of the
normalized `x`. -/
theorem c1_counterexample :
    get_vector 10 defaultJointsRemove [pOnes]
      ≠ (npFlatten (xNorm defaultJointsRemove [pOnes])).map Rat.cast
          ++ npRepeat (vNorm [pOnes]) 10
          ++ (v_joints_flat defaultJointsRemove [pOnes]).map Rat.cast := by
  intro h
  rw [get_vector, xs_flat_pOnes, xNorm_flat_pOnes] at h
  have h0 := congrArg (fun l => l[0]?) h
  simp only [List.map_replicate, List.getElem?_append, List.length_replicate,
    List.getElem?_replicate] at h0
  norm_num at h0

/-- C1 (amended): the three segments appear in the claimed order with the
claimed flattening convention, but the position segment is the flattening of
the raw filtered coordinates `xs`, not of the normalized positions. -/
theorem c1_segment_order (times_v : ℕ) (joints_remove : List ℕ)
    (ps : List Person) (J : ℕ)
    (hun : ∀ p ∈ ps, p.keypoints.length = J)
    (hnd : joints_remove.Nodup) (hlt : ∀ i ∈ joints_remove, i < J) :
    (get_vector times_v joints_remove ps).take
        (ps.length * ((J - joints_remove.length) * 2))
      = (xs_flat joints_remove ps).map Rat.cast
    ∧ ((get_vector times_v joints_remove ps).drop
        (ps.length * ((J - joints_remove.length) * 2))).take
        ((ps.length - 1) * times_v)
      = npRepeat (vNorm ps) times_v
    ∧ ((get_vector times_v joints_remove ps).drop
        (ps.length * ((J - joints_remove.length) * 2))).drop
        ((ps.length - 1) * times_v)
      = (v_joints_flat joints_remove ps).map Rat.cast :=
  segments_get_vector hun hnd hlt

/-- Witness for the amended C1 at two frames with the default configuration. -/
theorem c1_witness :
    (get_vector 10 defaultJointsRemove [pA, pB]).take
        (([pA, pB] : List Person).length
          * ((18 - defaultJointsRemove.length) * 2))
      = (xs_flat defaultJointsRemove [pA, pB]).map Rat.cast
    ∧ ((get_vector 10 defaultJointsRemove [pA, pB]).drop
        (([pA, pB] : List Person).length
          * ((18 - defaultJointsRemove.length) * 2))).take
        ((([pA, pB] : List Person).length - 1) * 10)
      = npRepeat (vNorm [pA, pB]) 10
    ∧ ((get_vector 10 defaultJointsRemove [pA, pB]).drop
        (([pA, pB] : List Person).length
          * ((18 - defaultJointsRemove.length) * 2))).drop
        ((([pA, pB] : List Person).length - 1) * 10)
      = (v_joints_flat defaultJointsRemove [pA, pB]).map Rat.cast :=
  c1_segment_order 10 defaultJointsRemove [pA, pB] 18 (by decide) (by decide)
    (by decide)

/-- C2 (counterexample): the position segment of the vector is the raw filtered
coordinate list, and at one all-ones frame its mean is 1, not 0. -/
theorem c2_counterexample :
    (get_vector 10 defaultJointsRemove [pOnes]).take 18
        = (xs_flat defaultJointsRemove [pOnes]).map Rat.cast
      ∧ npMean (xs_flat defaultJointsRemove [pOnes]) ≠ 0 := by
  constructor
  · rw [get_vector, List.append_assoc]
    exact List.take_left' (by rw [List.length_map]; decide)
  · rw [xs_flat_pOnes, npMean, List.sum_replicate, List.length_replicate]
    norm_num

/-- C2 (amended): the normalization of source line 34 subtracts the single
global scalar mean of the filtered coordinates; consequently the mean of the
mean-subtracted values — the normalized positions before the division by the
average height — is exactly zero.  (This holds of the normalized array `x`,
not of the position segment of the vector, which stays unnormalized.) -/
theorem c2_center_mean (joints_remove : List ℕ) (ps : List Person) :
    npMean ((npFlatten (xsFiltered joints_remove ps)).map
        (fun q => q - xsMean joints_remove ps)) = 0 := by
  rw [xsMean]
  exact npMean_center _

/-- C3 (counterexample): doubling every coordinate and height changes the
computed vector (its position segment is the unnormalized coordinates, which
scale with the input). -/
theorem c3_counterexample :
    get_vector 10 defaultJointsRemove ([pOnes].map (scalePerson 2))
      ≠ get_vector 10 defaultJointsRemove [pOnes] := by
  intro h
  rw [get_vector, get_vector, xs_flat_scale, xs_flat_pOnes] at h
  have h0 := congrArg (fun l => l[0]?) h
  simp only [List.map_replicate, List.getElem?_append, List.length_replicate,
    List.getElem?_replicate] at h0
  norm_num at h0

/-- C3 (amended): multiplying every input coordinate and height by a positive
constant c leaves the joint-velocity segment unchanged (the scale cancels in
the normalization), while the position segment — being the raw filtered
coordinates — is multiplied by c. -/
theorem c3_scale_invariance (c : ℚ) (joints_remove : List ℕ)
    (ps : List Person) (hc : 0 < c) :
    v_joints_flat joints_remove (ps.map (scalePerson c))
        = v_joints_flat joints_remove ps
      ∧ xs_flat joints_remove (ps.map (scalePerson c))
        = (xs_flat joints_remove ps).map (fun q => c * q) :=
  ⟨v_joints_flat_scale (ne_of_gt hc) _ _, xs_flat_scale c _ _⟩

/-- Witness for the amended C3 at c = 2 and one all-ones frame. -/
theorem c3_witness :
    v_joints_flat defaultJointsRemove ([pOnes].map (scalePerson 2))
        = v_joints_flat defaultJointsRemove [pOnes]
      ∧ xs_flat defaultJointsRemove ([pOnes].map (scalePerson 2))
        = (xs_flat defaultJointsRemove [pOnes]).map (fun q => 2 * q) :=
  c3_scale_invariance 2 defaultJointsRemove [pOnes] (by norm_num)

/-- C4 (counterexample): a frame list whose mean height is zero does NOT make
construction fail — the computation succeeds (numpy would only emit
non-finite values), contradicting the claimed DegenerateInputError. -/
theorem c4_counterexample :
    avg_h [pH0] = 0
      ∧ (get_vector_except 10 defaultJointsRemove [pH0]).isOk = true :=
  ⟨avg_h_pH0, rfl⟩

/-- C4 (amended): construction fails only on an empty frame sequence — with a
generic numpy axis error, there is no DegenerateInputError class — and on any
well-shaped nonempty frame list it succeeds regardless of the average height
(zero mean height included). -/
theorem c4_failure_modes (times_v : ℕ) (joints_remove : List ℕ)
    (ps : List Person) (J : ℕ) (hne : ps ≠ [])
    (hun : ∀ p ∈ ps, p.keypoints.length = J)
    (h18 : 2 ≤ ps.length → ∀ p ∈ ps, 18 ≤ p.keypoints.length)
    (hlt : ∀ i ∈ joints_remove, i < J) :
    get_vector_except times_v joints_remove ps
        = .ok (get_vector times_v joints_remove ps)
      ∧ get_vector_except times_v joints_remove [] = .error .axisError :=
  ⟨get_vector_except_ok hne hun h18 hlt, get_vector_except_nil _ _⟩

/-- Witness for the amended C4 at a single frame of height 0 (mean height 0):
construction succeeds, while the empty list fails with the axis error. -/
theorem c4_witness :
    get_vector_except 10 defaultJointsRemove [pH0]
        = .ok (get_vector 10 defaultJointsRemove [pH0])
      ∧ get_vector_except 10 defaultJointsRemove [] = .error .axisError :=
  c4_failure_modes 10 defaultJointsRemove [pH0] 18 (List.cons_ne_nil _ _)
    (by decide) (fun h => absurd h (by decide)) (by decide)

/-- C5 (code bug): `write_to_txt` never writes the claimed record — the
label string promotes the appended array to a string dtype, and
the default numeric format `%.18e` of `np.savetxt` then raises
`ValueError: Mismatch between array dtype and format specifier`. -/
theorem c5_write_always_fails (label : String) (coords : List ℝ) :
    write_to_txt label coords = .error .valueError := by
  have h : npIsUnicodeDtype
      (np_append [NpValue.str label] (coords.map NpValue.float)) = true := by
    simp [npIsUnicodeDtype, np_append, NpValue.isStr]
  rw [write_to_txt, np_savetxt, if_pos h]

/-- C8 (counterexample): putting the reference joint index 17 into the
excluded set causes no failure at all — the neck coordinates are read before
the joints are filtered — contradicting the claimed ConfigurationError. -/
theorem c8_counterexample :
    (get_vector_except 10 [17] [pOnes, pOnes]).isOk = true := rfl

/-- C8 (amended): an out-of-range excluded joint index, or (with at least two
frames) a reference joint index out of range, makes the vector computation
fail with a generic IndexError during `get_vector` — there is no dedicated
ConfigurationError and no construction-time validation. -/
theorem c8_index_errors (times_v : ℕ) (joints_remove : List ℕ)
    (ps : List Person) (J : ℕ) (hne : ps ≠ [])
    (hun : ∀ p ∈ ps, p.keypoints.length = J)
    (hbad : (∃ i ∈ joints_remove, J ≤ i)
      ∨ (2 ≤ ps.length ∧ ∃ p ∈ ps, p.keypoints.length < 18)) :
    get_vector_except times_v joints_remove ps = .error .indexError := by
  have hhead := headD_keypoints_length hne hun
  by_cases hc1 : 2 ≤ ps.length ∧ ∃ p ∈ ps, p.keypoints.length < 18
  · rw [get_vector_except, if_pos hc1]
  · have h2 : ¬(ps.isEmpty = true) := by
      cases ps with
      | nil => exact absurd rfl hne
      | cons p t => simp
    have h3 : ¬¬∀ p ∈ ps,
        p.keypoints.length = (ps.headD default).keypoints.length :=
      not_not_intro (fun p hp => by rw [hun p hp, hhead])
    rcases hbad with hb | hb
    · obtain ⟨i, hi, hle⟩ := hb
      rw [get_vector_except, if_neg hc1, if_neg h2, if_neg h3,
        if_pos ⟨i, hi, by rw [hhead]; exact hle⟩]
    · exact absurd hb hc1

/-- Witness for the amended C8: excluded index 99 is out of range for J = 18
and produces the IndexError. -/
theorem c8_witness :
    get_vector_except 10 [99] [pOnes] = .error .indexError :=
  c8_index_errors 10 [99] [pOnes] 18 (List.cons_ne_nil _ _) (by decide)
    (Or.inl ⟨99, by decide, by decide⟩)
